import Mathlib

/-!
Verification development for the form-agent repository: a Google-Forms
auto-filler whose core is a field-discovery and label-matching engine.
The container-aware engine variant is embedded here as a pure model over
a rose-tree document: `extractFormFields` (discovery), `findLabelForInput`
and `findLabelText` (label inference), `fillForm` (application) and
`autoFillGoogleForm` (orchestration).  DOM nodes are identified by their
path (list of child indices) from the document root.
-/

namespace FormAgent

/-! ### JavaScript-style string helpers -/
/-- Character-list prefix test (used to build the substring test that models
JavaScript's `String.prototype.includes`). -/
def chPre : List Char → List Char → Bool
  | [], _ => true
  | _ :: _, [] => false
  | a :: as, b :: bs => a == b && chPre as bs

/-- Character-list substring test: does `hay` contain `needle` contiguously? -/
def chSub (needle : List Char) : List Char → Bool
  | [] => needle.isEmpty
  | h :: t => chPre needle (h :: t) || chSub needle t

/-- Models JavaScript `hay.includes(needle)`. -/
def strIncl (hay needle : String) : Bool :=
  chSub needle.data hay.data

/-- JavaScript `a || b` for two strings (empty string is falsy). -/
def jsOrSS (a b : String) : String :=
  if a.isEmpty then b else a

/-- JavaScript `a || b` where `a` may be `null`/`undefined`
(absent or empty falls through to `b`). -/
def jsOrOS (a : Option String) (b : String) : String :=
  match a with
  | some s => jsOrSS s b
  | none => b

/-- JavaScript truthiness of a nullable string attribute value. -/
def truthyStr : Option String → Option String
  | some s => if s.isEmpty then none else some s
  | none => none

/-- Strip leading and trailing whitespace from a character list. -/
def chTrim (l : List Char) : List Char :=
  ((l.dropWhile Char.isWhitespace).reverse.dropWhile Char.isWhitespace).reverse

/-- Models JavaScript `s.trim()` (strip whitespace at both ends). -/
def strTrim (s : String) : String :=
  ⟨chTrim s.data⟩

/-! ### Document model -/
/-- Element tag names (the ones the engine's selectors and walks inspect). -/
inductive Tag where
  | label | input | textarea | selectEl | optionEl | div
  | h1 | h2 | h3 | h4 | h5 | h6 | span | other
deriving DecidableEq, Repr

/-- The per-element data the engine reads or writes: tag, the attributes the
selectors and label heuristics consult, the mutable `value`/`checked` state,
and the element's own text (its text-node children, placed before the element
children in `textContent`). -/
structure EProps where
  tag : Tag
  id : Option String := none
  ariaLabel : Option String := none
  placeholder : Option String := none
  dataParams : Option String := none
  typeAttr : Option String := none
  nameAttr : Option String := none
  forAttr : Option String := none
  value : String := ""
  classes : List String := []
  required : Bool := false
  checked : Bool := false
  ownText : String := ""
deriving DecidableEq, Repr

/-- A DOM element: properties plus child elements. -/
inductive Elem where
  | mk (props : EProps) (children : List Elem)

def Elem.props : Elem → EProps
  | .mk pr _ => pr

def Elem.children : Elem → List Elem
  | .mk _ cs => cs

/-- A node is addressed by its path of child indices from the root. -/
abbrev Path := List Nat

/-- Element at a path, if the path is valid. -/
def elemAt? : Elem → Path → Option Elem
  | e, [] => some e
  | .mk _ cs, i :: p =>
    match cs[i]? with
    | some c => elemAt? c p
    | none => none

/-- Properties of the node at a path. -/
def propsAt? (root : Elem) (p : Path) : Option EProps :=
  (elemAt? root p).map Elem.props

mutual

/-- `textContent`: the element's own text followed by its descendants' text. -/
def textContent : Elem → String
  | .mk pr cs => pr.ownText ++ textContentL cs

def textContentL : List Elem → String
  | [] => ""
  | c :: cs => textContent c ++ textContentL cs

end

/-- `textContent` of the node at a path (empty for an invalid path). -/
def textContentAt (root : Elem) (p : Path) : String :=
  match elemAt? root p with
  | some e => textContent e
  | none => ""

mutual

/-- All paths of the subtree rooted here (the root itself first, then the
descendants in document order, i.e. pre-order). -/
def subPaths : Elem → List Path
  | .mk _ cs => [] :: subPathsL 0 cs

def subPathsL : Nat → List Elem → List Path
  | _, [] => []
  | i, c :: cs => (subPaths c).map (i :: ·) ++ subPathsL (i + 1) cs

end

/-- Does the node at `p` exist and satisfy the selector predicate? -/
def propMatches (root : Elem) (sel : EProps → Bool) (p : Path) : Bool :=
  match propsAt? root p with
  | some pr => sel pr
  | none => false

/-- `document.querySelectorAll(sel)`: every element of the document, in
document order, that satisfies `sel`. -/
def qAll (root : Elem) (sel : EProps → Bool) : List Path :=
  (subPaths root).filter (propMatches root sel)

/-- `base.querySelectorAll(sel)`: the strict descendants of the node at
`base`, in document order, that satisfy `sel`. -/
def qFrom (root : Elem) (base : Path) (sel : EProps → Bool) : List Path :=
  match elemAt? root base with
  | some e => ((subPathsL 0 e.children).map (base ++ ·)).filter (propMatches root sel)
  | none => []

/-- The chain of a node and its ancestors, nearest first (ending at the root). -/
def upChain (p : Path) : List Path :=
  ((List.range (p.length + 1)).reverse).map fun k => p.take k

/-- `el.closest(sel)`: the nearest ancestor-or-self satisfying `sel`. -/
def closest (root : Elem) (p : Path) (sel : EProps → Bool) : Option Path :=
  (upChain p).find? (propMatches root sel)

/-- The preceding siblings of a node, nearest first. -/
def prevSiblings (p : Path) : List Path :=
  match p.getLast? with
  | some i => ((List.range i).reverse).map fun j => p.dropLast ++ [j]
  | none => []

/-- Read a nullable attribute of the node at a path. -/
def getAttr (root : Elem) (p : Path) (f : EProps → Option String) : Option String :=
  match propsAt? root p with
  | some pr => f pr
  | none => none

/-- The `.name` IDL property of an input: the attribute, or `""` if absent. -/
def nameAttrStr (root : Elem) (p : Path) : String :=
  (getAttr root p EProps.nameAttr).getD ""

/-- The `.checked` IDL property of the node at a path. -/
def checkedAt (root : Elem) (p : Path) : Bool :=
  match propsAt? root p with
  | some pr => pr.checked
  | none => false

/-- The `.required` IDL property of the node at a path. -/
def requiredAt (root : Elem) (p : Path) : Bool :=
  match propsAt? root p with
  | some pr => pr.required
  | none => false

/-- The tag of the node at a path. -/
def tagAt (root : Elem) (p : Path) : Option Tag :=
  (propsAt? root p).map EProps.tag

/-! ### Selectors used by the engine -/
/-- Selector `label[for="id"]`. -/
def labelForSel (idv : String) (pr : EProps) : Bool :=
  pr.tag == Tag.label && pr.forAttr == some idv

/-- Selector `label` (used with `closest`). -/
def isLabelTag (pr : EProps) : Bool :=
  pr.tag == Tag.label

/-- Question-container selector
`[data-params*="question"], .freebirdFormviewerViewItemsItemItem, .m2`. -/
def isQuestionContainer (pr : EProps) : Bool :=
  (match pr.dataParams with
   | some s => strIncl s "question"
   | none => false)
  || pr.classes.contains "freebirdFormviewerViewItemsItemItem"
  || pr.classes.contains "m2"

/-- Question-title selector
`.freebirdFormviewerViewItemsItemItemTitle, .m7, h1, h2, h3, h4, h5, h6`. -/
def isTitleEl (pr : EProps) : Bool :=
  pr.classes.contains "freebirdFormviewerViewItemsItemItemTitle"
  || pr.classes.contains "m7"
  || pr.tag == Tag.h1 || pr.tag == Tag.h2 || pr.tag == Tag.h3
  || pr.tag == Tag.h4 || pr.tag == Tag.h5 || pr.tag == Tag.h6

/-- Selector `input[type="radio"]`. -/
def isRadio (pr : EProps) : Bool :=
  pr.tag == Tag.input && pr.typeAttr == some "radio"

/-- Selector `input[type="checkbox"]`. -/
def isCheckbox (pr : EProps) : Bool :=
  pr.tag == Tag.input && pr.typeAttr == some "checkbox"

/-- Discovery text selector
`input[type="text"], input[type="email"], input[type="tel"], textarea, input:not([type])`. -/
def isTextWide (pr : EProps) : Bool :=
  (pr.tag == Tag.input &&
    (pr.typeAttr == some "text" || pr.typeAttr == some "email"
      || pr.typeAttr == some "tel" || pr.typeAttr == none))
  || pr.tag == Tag.textarea

/-- Application text selector
`input[type="text"], input[type="email"], input[type="tel"], textarea`
(note: unlike discovery, no `input:not([type])`). -/
def isTextNarrow (pr : EProps) : Bool :=
  (pr.tag == Tag.input &&
    (pr.typeAttr == some "text" || pr.typeAttr == some "email"
      || pr.typeAttr == some "tel"))
  || pr.tag == Tag.textarea

/-- Selector `select`. -/
def isSelectEl (pr : EProps) : Bool :=
  pr.tag == Tag.selectEl

/-- Selector `option` (for `select.options`). -/
def isOptionEl (pr : EProps) : Bool :=
  pr.tag == Tag.optionEl

/-! ### Label inference -/
/-- Step 1 of label inference: `document.querySelector('label[for="id"]')`
when the control has a truthy `id`; returns the label's trimmed text.
(JavaScript returns `label.textContent?.trim() || ''`, which equals the
trimmed text.) -/
def idLabelText (root : Elem) (p : Path) : Option String :=
  match truthyStr (getAttr root p EProps.id) with
  | some i => ((qAll root (labelForSel i)).head?).map fun lp => strTrim (textContentAt root lp)
  | none => none

/-- Step 2 of label inference: `el.closest('label')`, trimmed text. -/
def parentLabelText (root : Elem) (p : Path) : Option String :=
  (closest root p isLabelTag).map fun lp => strTrim (textContentAt root lp)

/-- Step 3 of discovery-side label inference: walk the preceding siblings and
return the trimmed text of the first that is a `LABEL` element or carries the
`question` class. -/
def siblingLabel (root : Elem) (p : Path) : Option String :=
  ((prevSiblings p).find? fun q =>
    propMatches root (fun pr => pr.tag == Tag.label || pr.classes.contains "question") q).map
    fun q => strTrim (textContentAt root q)

/-- `findLabelForInput` (discovery pass): explicit label association, parent
label, preceding-sibling walk, `aria-label`, `placeholder`, then the sentinel
`"Unknown field"`. -/
def findLabelForInput (root : Elem) (p : Path) : String :=
  match idLabelText root p with
  | some t => t
  | none =>
  match parentLabelText root p with
  | some t => t
  | none =>
  match siblingLabel root p with
  | some t => t
  | none =>
  match truthyStr (getAttr root p EProps.ariaLabel) with
  | some a => a
  | none =>
  match truthyStr (getAttr root p EProps.placeholder) with
  | some ph => ph
  | none => "Unknown field"

/-- `findLabelText` (application pass, text branch): explicit label
association, parent label, `aria-label`, `placeholder`, then the sentinel.
There is no preceding-sibling step. -/
def findLabelText (root : Elem) (p : Path) : String :=
  match idLabelText root p with
  | some t => t
  | none =>
  match parentLabelText root p with
  | some t => t
  | none =>
  match truthyStr (getAttr root p EProps.ariaLabel) with
  | some a => a
  | none =>
  match truthyStr (getAttr root p EProps.placeholder) with
  | some ph => ph
  | none => "Unknown field"

/-- `findLabelText` as inlined in the checkbox and select branches of
`fillForm`: explicit label association, parent label, `aria-label`, sentinel
(no placeholder step). -/
def findLabelTextCb (root : Elem) (p : Path) : String :=
  match idLabelText root p with
  | some t => t
  | none =>
  match parentLabelText root p with
  | some t => t
  | none =>
  match truthyStr (getAttr root p EProps.ariaLabel) with
  | some a => a
  | none => "Unknown field"

/-! ### Discovery engine (`extractFormFields`, container-aware variant) -/
/-- One discovered control or control-group.  `element` is the path of the
underlying control (the first radio, for a radio group); the source stores
the DOM handle there. -/
structure FormField where
  type : String
  label : String
  name : String
  required : Bool
  options : Option (List String) := none
  element : Path
deriving DecidableEq, Repr

/-- The question text of a container:
`container.querySelector(titleSel)?.textContent?.trim() || 'Question N'`
where `N` is the container index plus one. -/
def questionTextAt (root : Elem) (i : Nat) (c : Path) : String :=
  jsOrOS (((qFrom root c isTitleEl).head?).map fun tp => strTrim (textContentAt root tp))
    ("Question " ++ toString (i + 1))

/-- A radio option's text:
`input.closest('label')?.textContent?.trim() || input.getAttribute('aria-label')
 || input.value || 'Option'`. -/
def radioOptionText (root : Elem) (p : Path) : String :=
  jsOrOS ((closest root p isLabelTag).map fun lp => strTrim (textContentAt root lp))
    (jsOrOS (getAttr root p EProps.ariaLabel)
      (jsOrSS ((getAttr root p (fun pr => some pr.value)).getD "") "Option"))

/-- A checkbox's own text:
`checkbox.closest('label')?.textContent?.trim() || checkbox.getAttribute('aria-label')
 || 'Checkbox N'` where `N` is the checkbox index plus one. -/
def checkboxText (root : Elem) (j : Nat) (p : Path) : String :=
  jsOrOS ((closest root p isLabelTag).map fun lp => strTrim (textContentAt root lp))
    (jsOrOS (getAttr root p EProps.ariaLabel) ("Checkbox " ++ toString (j + 1)))

/-- `select.options` rendered texts: the trimmed text of each descendant
`option`, in document order. -/
def selectOptionTexts (root : Elem) (sp : Path) : List String :=
  (qFrom root sp isOptionEl).map fun op => strTrim (textContentAt root op)

/-- The fields emitted while processing the container with index `i` at path
`c`: one grouped radio descriptor (when the container has radios), one
descriptor per checkbox with the composite label, one per text control, one
per select. -/
def containerFields (root : Elem) (i : Nat) (c : Path) : List FormField :=
  let qText := questionTextAt root i c
  let radios := qFrom root c isRadio
  let radioFields : List FormField :=
    if radios.isEmpty then []
    else [{ type := "radio", label := qText, name := "question_" ++ toString i,
            required := false,
            options := some (radios.map fun rp => radioOptionText root rp),
            element := radios.headD [] }]
  let cbs := qFrom root c isCheckbox
  let cbFields : List FormField := cbs.enum.map fun jc =>
    { type := "checkbox",
      label := qText ++ " - " ++ checkboxText root jc.1 jc.2,
      name := "question_" ++ toString i ++ "_checkbox_" ++ toString jc.1,
      required := false, element := jc.2 }
  let texts := qFrom root c isTextWide
  let textFields : List FormField := texts.enum.map fun jt =>
    { type := if tagAt root jt.2 == some Tag.textarea then "textarea" else "text",
      label := qText,
      name := "question_" ++ toString i ++ "_text_" ++ toString jt.1,
      required := requiredAt root jt.2, element := jt.2 }
  let sels := qFrom root c isSelectEl
  let selFields : List FormField := sels.enum.map fun js =>
    { type := "select", label := qText,
      name := "question_" ++ toString i ++ "_select_" ++ toString js.1,
      required := requiredAt root js.2,
      options := some (selectOptionTexts root js.2), element := js.2 }
  radioFields ++ cbFields ++ textFields ++ selFields

/-- The container-scoped discovery pass: the question containers in document
order, each contributing its `containerFields`. -/
def containerPassFields (root : Elem) : List FormField :=
  ((qAll root isQuestionContainer).enum.map fun ic =>
    containerFields root ic.1 ic.2).flatten

/-- The fallback sweep: every text-capable control in the document whose
`closest` question container is null, labelled by `findLabelForInput`, named
by its `name` attribute or `field_N` where `N` is its index among all
text-capable controls. -/
def fallbackFields (root : Elem) : List FormField :=
  (qAll root isTextWide).enum.filterMap fun ip =>
    if (closest root ip.2 isQuestionContainer).isSome then none
    else some
      { type := if tagAt root ip.2 == some Tag.textarea then "textarea" else "text",
        label := findLabelForInput root ip.2,
        name := jsOrSS (nameAttrStr root ip.2) ("field_" ++ toString ip.1),
        required := requiredAt root ip.2, element := ip.2 }

/-- `extractFormFields`: the container-scoped pass followed by the fallback
sweep, in emission order. -/
def extractFormFields (root : Elem) : List FormField :=
  containerPassFields root ++ fallbackFields root

/-! ### Document mutation -/
/-- Apply `g` to the `i`-th element of a list (identity when out of range). -/
def updChild : List Elem → Nat → (Elem → Elem) → List Elem
  | [], _, _ => []
  | c :: cs, 0, g => g c :: cs
  | c :: cs, i + 1, g => c :: updChild cs i g

/-- Rewrite the properties of the node at a path (identity on an invalid
path). -/
def updateAt : Elem → Path → (EProps → EProps) → Elem
  | .mk pr cs, [], f => .mk (f pr) cs
  | .mk pr cs, i :: q, f => .mk pr (updChild cs i fun c => updateAt c q f)

/-- The user-visible notifications `fillForm` dispatches while mutating a
control. -/
inductive FEvent where
  | inputEv (p : Path)
  | changeEv (p : Path)
  | clickEv (p : Path)
deriving DecidableEq, Repr

/-! ### Application engine (`fillForm`) -/
/-- The bidirectional substring match used throughout application:
`a.includes(b) || b.includes(a)`. -/
def bidirMatch (a b : String) : Bool :=
  strIncl a b || strIncl b a

/-- The text-branch candidate test:
`label.includes(fieldLabel) || fieldLabel.includes(label)` with
`label = findLabelText(el)`. -/
def textMatchPred (root : Elem) (fieldLabel : String) (p : Path) : Bool :=
  bidirMatch (findLabelText root p) fieldLabel

/-- Text/textarea application: find the first text-capable control whose
inferred label bidirectionally matches the descriptor label, set its value and
dispatch `input` then `change`; silently do nothing when no control matches. -/
def fillText (root : Elem) (fieldLabel fieldValue : String) : Elem × List FEvent :=
  match (qAll root isTextNarrow).find? (textMatchPred root fieldLabel) with
  | some p =>
    (updateAt root p fun pr => { pr with value := fieldValue },
      [FEvent.inputEv p, FEvent.changeEv p])
  | none => (root, [])

/-- A radio's own label in the radio branch:
`el.closest('label')?.textContent?.trim() || ''`. -/
def radioOwnLabel (root : Elem) (p : Path) : String :=
  ((closest root p isLabelTag).map fun lp => strTrim (textContentAt root lp)).getD ""

/-- A radio's enclosing container question text in the radio branch:
`el.closest(containerSel)?.querySelector(titleSel)?.textContent?.trim() || ''`. -/
def radioContainerLabel (root : Elem) (p : Path) : String :=
  match closest root p isQuestionContainer with
  | some cp =>
    (((qFrom root cp isTitleEl).head?).map fun tp => strTrim (textContentAt root tp)).getD ""
  | none => ""

/-- The radio-branch candidate test:
`(label.includes(value) || value.includes(label)) && questionText.includes(fieldLabel)`. -/
def radioMatchPred (root : Elem) (fieldLabel fieldValue : String) (p : Path) : Bool :=
  bidirMatch (radioOwnLabel root p) fieldValue
    && strIncl (radioContainerLabel root p) fieldLabel

/-- A native radio click: checks the clicked radio and unchecks the other
radios of the same (non-empty) `name` group. -/
def clickRadio (root : Elem) (p : Path) : Elem :=
  let nm := nameAttrStr root p
  let cleared := (qAll root isRadio).foldl
    (fun acc q =>
      if q ≠ p && !nm.isEmpty && nameAttrStr root q == nm then
        updateAt acc q fun pr => { pr with checked := false }
      else acc)
    root
  updateAt cleared p fun pr => { pr with checked := true }

/-- Radio application body (already guarded by the options check in
`fillField`): click the first matching radio, if any. -/
def fillRadio (root : Elem) (fieldLabel fieldValue : String) : Elem × List FEvent :=
  match (qAll root isRadio).find? (radioMatchPred root fieldLabel fieldValue) with
  | some p => (clickRadio root p, [FEvent.clickEv p])
  | none => (root, [])

/-- The checkbox-branch candidate test (label inference without the
placeholder step). -/
def cbMatchPred (root : Elem) (fieldLabel : String) (p : Path) : Bool :=
  bidirMatch (findLabelTextCb root p) fieldLabel

/-- Checkbox application body: find the first matching checkbox and click it
(a click toggles `checked`) only when its current state differs from the
desired one. -/
def fillCheckbox (root : Elem) (fieldLabel : String) (shouldCheck : Bool) :
    Elem × List FEvent :=
  match (qAll root isCheckbox).find? (cbMatchPred root fieldLabel) with
  | some p =>
    if checkedAt root p != shouldCheck then
      (updateAt root p fun pr => { pr with checked := !pr.checked }, [FEvent.clickEv p])
    else (root, [])
  | none => (root, [])

/-- Select application body: find the first matching select (same label
inference as the checkbox branch), set its value and dispatch `change`. -/
def fillSelect (root : Elem) (fieldLabel fieldValue : String) : Elem × List FEvent :=
  match (qAll root isSelectEl).find? (cbMatchPred root fieldLabel) with
  | some p =>
    (updateAt root p fun pr => { pr with value := fieldValue }, [FEvent.changeEv p])
  | none => (root, [])

/-- A value of the label→value mapping: string, boolean, or string list. -/
inductive FVal where
  | s (v : String)
  | b (v : Bool)
  | l (v : List String)
deriving DecidableEq, Repr

/-- JavaScript `String(value)` on a mapping value. -/
def fvalToString : FVal → String
  | .s v => v
  | .b v => if v then "true" else "false"
  | .l v => String.intercalate "," v

/-- The external label→value mapping (`formData[label]`; an absent key and a
JSON `null` both read back as `none`). -/
def FormData : Type := String → Option FVal

/-- One iteration of the `fillForm` loop: skip when the mapping has no value
for the descriptor's label, otherwise dispatch on the descriptor type with
the per-type guards of the source. -/
def fillField (root : Elem) (field : FormField) (fd : FormData) : Elem × List FEvent :=
  match fd field.label with
  | none => (root, [])
  | some v =>
    match field.type with
    | "text" => fillText root field.label (fvalToString v)
    | "textarea" => fillText root field.label (fvalToString v)
    | "radio" =>
      match field.options with
      | some opts =>
        if opts.contains (fvalToString v) then fillRadio root field.label (fvalToString v)
        else (root, [])
      | none => (root, [])
    | "checkbox" =>
      match v with
      | .b bv => fillCheckbox root field.label bv
      | _ => (root, [])
    | "select" =>
      match field.options with
      | some opts =>
        if opts.contains (fvalToString v) then fillSelect root field.label (fvalToString v)
        else (root, [])
      | none => (root, [])
    | _ => (root, [])

/-- `fillForm`: apply the mapping to each descriptor in order, threading the
mutated document (the source's per-field try/catch and pacing delay have no
counterpart in this pure model). -/
def fillForm (root : Elem) (fields : List FormField) (fd : FormData) :
    Elem × List FEvent :=
  match fields with
  | [] => (root, [])
  | f :: rest =>
    let step := fillField root f fd
    let restOut := fillForm step.1 rest fd
    (restOut.1, step.2 ++ restOut.2)

/-! ### Orchestration (`autoFillGoogleForm`) -/
/-- Fatal error kinds that unwind past the entry point. -/
inductive RunError where
  | extraction
deriving DecidableEq, Repr

/-- Normal outcomes of a run. -/
inductive RunOutcome where
  | zeroFields
  | filled (finalDoc : Elem) (events : List FEvent)

/-- `autoFillGoogleForm` after the document is loaded: discover the fields;
when there are none, log guidance and return normally before requesting a
value mapping; otherwise ask the value-mapping provider (its failure to yield
a parseable object is fatal) and run the application pass. -/
def autoFillGoogleForm (root : Elem)
    (provider : List FormField → Option FormData) : Except RunError RunOutcome :=
  let fields := extractFormFields root
  if fields.length = 0 then .ok .zeroFields
  else
    match provider fields with
    | none => .error .extraction
    | some fd =>
      let out := fillForm root fields fd
      .ok (.filled out.1 out.2)

/-! ### Concrete documents used as counterexamples and witnesses -/
/-- A control whose only label is a preceding sibling `label` element. -/
def docSiblingLabel : Elem :=
  .mk { tag := .div } [
    .mk { tag := .label, ownText := "Your name" } [],
    .mk { tag := .input, typeAttr := some "text" } [] ]

/-- A control labelled only by `aria-label` (no siblings fire the walk). -/
def docAriaOnly : Elem :=
  .mk { tag := .div } [
    .mk { tag := .input, typeAttr := some "text", ariaLabel := some "Phone" } [] ]

/-- Two stray text inputs sharing the `name` attribute and no container. -/
def docDupNames : Elem :=
  .mk { tag := .div } [
    .mk { tag := .input, typeAttr := some "text", nameAttr := some "email" } [],
    .mk { tag := .input, typeAttr := some "text", nameAttr := some "email" } [] ]

/-- One question container (class `m2`) holding a heading and three radios
labelled Red, Green, Blue by their wrapping labels. -/
def docColors : Elem :=
  .mk { tag := .div } [
    .mk { tag := .div, classes := ["m2"] } [
      .mk { tag := .h3, ownText := "Favorite color" } [],
      .mk { tag := .label, ownText := "Red" }
        [ .mk { tag := .input, typeAttr := some "radio", nameAttr := some "c" } [] ],
      .mk { tag := .label, ownText := "Green" }
        [ .mk { tag := .input, typeAttr := some "radio", nameAttr := some "c" } [] ],
      .mk { tag := .label, ownText := "Blue" }
        [ .mk { tag := .input, typeAttr := some "radio", nameAttr := some "c" } [] ] ] ]

/-- A document with no recognized controls at all. -/
def docEmpty : Elem :=
  .mk { tag := .div } []

/-! ### Decimal-representation lemmas and identifier keys (container pass) -/
def chVal (c : Char) : Nat := c.toNat - 48

def chsVal (l : List Char) : Nat := l.foldl (fun a c => 10 * a + chVal c) 0

inductive NameKey where
  | radioK (i : Nat)
  | cbK (i j : Nat)
  | textK (i j : Nat)
  | selK (i j : Nat)
deriving DecidableEq

def keyIdx : NameKey → Nat
  | .radioK i => i
  | .cbK i _ => i
  | .textK i _ => i
  | .selK i _ => i

def keyName : NameKey → String
  | .radioK i => "question_" ++ toString i
  | .cbK i j => "question_" ++ toString i ++ "_checkbox_" ++ toString j
  | .textK i j => "question_" ++ toString i ++ "_text_" ++ toString j
  | .selK i j => "question_" ++ toString i ++ "_select_" ++ toString j

def sfxData : NameKey → List Char
  | .radioK _ => []
  | .cbK _ j => "_checkbox_".data ++ (Nat.repr j).data
  | .textK _ j => "_text_".data ++ (Nat.repr j).data
  | .selK _ j => "_select_".data ++ (Nat.repr j).data

/-! ### C2 — identifier distinctness -/
/-- The abstract identifier keys one container contributes: an optional radio
key, then one checkbox key per checkbox, one text key per text control, one
select key per select. -/
def containerKeys (i : Nat) (hasRadio : Bool) (ncb ntx nsel : Nat) : List NameKey :=
  (if hasRadio then [NameKey.radioK i] else []) ++
  (List.range ncb).map (NameKey.cbK i) ++
  (List.range ntx).map (NameKey.textK i) ++
  (List.range nsel).map (NameKey.selK i)

def keyKind : NameKey → Nat
  | .radioK _ => 0
  | .cbK _ _ => 1
  | .textK _ _ => 2
  | .selK _ _ => 3

/-- The abstract keys of the whole container pass. -/
def allKeys (root : Elem) : List NameKey :=
  ((qAll root isQuestionContainer).enum.map fun ic =>
    containerKeys ic.1 (!(qFrom root ic.2 isRadio).isEmpty)
      (qFrom root ic.2 isCheckbox).length (qFrom root ic.2 isTextWide).length
      (qFrom root ic.2 isSelectEl).length).flatten

/-! ### C4 — radio grouping invariant -/
/-- The grouped radio descriptor a container with radios contributes. -/
def radioGroupField (root : Elem) (i : Nat) (c : Path) : FormField :=
  { type := "radio", label := questionTextAt root i c,
    name := "question_" ++ toString i, required := false,
    options := some ((qFrom root c isRadio).map fun rp => radioOptionText root rp),
    element := (qFrom root c isRadio).headD [] }

/-- The descriptor discovery produces for the colors document's container. -/
def docColorsField : FormField :=
  { type := "radio", label := "Favorite color", name := "question_0",
    required := false, options := some ["Red", "Green", "Blue"], element := [0, 1, 0] }

/-- A mapping assigning Green to the colors question. -/
def docColorsFD : FormData :=
  fun l => if l = "Favorite color" then some (.s "Green") else none

/-! ### C6 — checkbox application is idempotent -/
/-- The view of an element's properties that ignores its `checked` state. -/
def statView (pr : EProps) : EProps :=
  { pr with checked := false }

/-- A property rewrite that can only change the `checked` state. -/
def StaticF (f : EProps → EProps) : Prop :=
  ∀ pr, statView (f pr) = statView pr

/-! ### Theorems -/

/-! ### C1 — the two label-inference functions -/
/-- C1 counterexample: on a control labelled only by a preceding sibling
`label` element, the discovery-pass heuristic `findLabelForInput` returns the
sibling label while the application-pass heuristic `findLabelText` returns
the sentinel, so the two per-control heuristics are not the same function. -/
theorem findLabel_functions_differ :
    findLabelForInput docSiblingLabel [1] = "Your name" ∧
    findLabelText docSiblingLabel [1] = "Unknown field" ∧
    findLabelText docSiblingLabel [1] ≠ findLabelForInput docSiblingLabel [1] :=
  ⟨rfl, rfl, by decide⟩

/-- C1 (amended): the application-pass heuristic agrees with the
discovery-pass heuristic on every control for which the preceding-sibling
walk finds nothing; the two differ exactly in that `findLabelText` omits the
sibling-walk step. -/
theorem findLabel_agree_without_sibling (root : Elem) (p : Path)
    (h : siblingLabel root p = none) :
    findLabelText root p = findLabelForInput root p := by
  unfold findLabelText findLabelForInput
  rw [h]

/-- C1 witness: a control labelled by `aria-label` with no preceding siblings
satisfies the hypothesis, and there the two heuristics agree. -/
theorem findLabel_agree_witness :
    siblingLabel docAriaOnly [0] = none ∧
    findLabelText docAriaOnly [0] = findLabelForInput docAriaOnly [0] :=
  ⟨rfl, findLabel_agree_without_sibling docAriaOnly [0] rfl⟩

theorem chsVal_append_singleton (l : List Char) (c : Char) :
    chsVal (l ++ [c]) = 10 * chsVal l + chVal c := by
  unfold chsVal
  rw [List.foldl_append]
  rfl

theorem digit_chVal : ∀ k, k < 10 → chVal (Nat.digitChar k) = k := by
  intro k hk
  interval_cases k <;> decide

theorem digit_isDigit : ∀ k, k < 10 → (Nat.digitChar k).isDigit = true := by
  intro k hk
  interval_cases k <;> decide

theorem toDigitsCore_acc (b : Nat) :
    ∀ (f n : Nat) (acc : List Char),
      Nat.toDigitsCore b f n acc = Nat.toDigitsCore b f n [] ++ acc := by
  intro f
  induction f with
  | zero => intro n acc; simp [Nat.toDigitsCore]
  | succ f ih =>
    intro n acc
    rw [Nat.toDigitsCore]
    by_cases h : n / b = 0
    · rw [if_pos h]
      rw [Nat.toDigitsCore]
      rw [if_pos h]
      rfl
    · rw [if_neg h]
      conv_rhs => rw [Nat.toDigitsCore]
      rw [if_neg h]
      rw [ih (n / b) (Nat.digitChar (n % b) :: acc), ih (n / b) [Nat.digitChar (n % b)]]
      simp

theorem toDigitsCore_val :
    ∀ (f n : Nat), n < f → chsVal (Nat.toDigitsCore 10 f n []) = n := by
  intro f
  induction f with
  | zero => intro n hn; omega
  | succ f ih =>
    intro n hn
    rw [Nat.toDigitsCore]
    by_cases h : n / 10 = 0
    · rw [if_pos h]
      have hlt : n % 10 < 10 := Nat.mod_lt _ (by omega)
      have : chsVal [Nat.digitChar (n % 10)] = n % 10 := by
        show 10 * 0 + chVal (Nat.digitChar (n % 10)) = n % 10
        rw [digit_chVal _ hlt]
        omega
      rw [this]
      omega
    · rw [if_neg h]
      rw [toDigitsCore_acc]
      rw [chsVal_append_singleton]
      have hd : n / 10 < f := by
        have h1 : n / 10 < n := Nat.div_lt_self (by omega) (by omega)
        omega
      rw [ih _ hd]
      have hlt : n % 10 < 10 := Nat.mod_lt _ (by omega)
      rw [digit_chVal _ hlt]
      omega

theorem toDigitsCore_digits :
    ∀ (f n : Nat) (c : Char), c ∈ Nat.toDigitsCore 10 f n [] → c.isDigit = true := by
  intro f
  induction f with
  | zero => intro n c hc; cases hc
  | succ f ih =>
    intro n c hc
    rw [Nat.toDigitsCore] at hc
    by_cases h : n / 10 = 0
    · rw [if_pos h, List.mem_singleton] at hc
      subst hc
      exact digit_isDigit _ (Nat.mod_lt _ (by omega))
    · rw [if_neg h, toDigitsCore_acc, List.mem_append] at hc
      rcases hc with hc | hc
      · exact ih _ c hc
      · rw [List.mem_singleton] at hc
        subst hc
        exact digit_isDigit _ (Nat.mod_lt _ (by omega))

theorem repr_data_eq (n : Nat) : (Nat.repr n).data = Nat.toDigitsCore 10 (n + 1) n [] := rfl

theorem chsVal_repr (n : Nat) : chsVal (Nat.repr n).data = n := by
  rw [repr_data_eq]
  exact toDigitsCore_val (n + 1) n (by omega)

theorem repr_injective {a b : Nat} (h : Nat.repr a = Nat.repr b) : a = b := by
  have := congrArg (fun s => chsVal s.data) h
  simpa [chsVal_repr] using this

theorem repr_digits (n : Nat) (c : Char) (hc : c ∈ (Nat.repr n).data) : c.isDigit = true := by
  rw [repr_data_eq] at hc
  exact toDigitsCore_digits _ _ c hc

theorem digits_cancel :
    ∀ (a₁ a₂ t₁ t₂ : List Char),
      a₁ ++ t₁ = a₂ ++ t₂ →
      (∀ c ∈ a₁, c.isDigit = true) → (∀ c ∈ a₂, c.isDigit = true) →
      (∀ c, t₁.head? = some c → c.isDigit = false) →
      (∀ c, t₂.head? = some c → c.isDigit = false) →
      a₁ = a₂ ∧ t₁ = t₂ := by
  intro a₁
  induction a₁ with
  | nil =>
    intro a₂ t₁ t₂ h _ hd₂ hn₁ _
    cases a₂ with
    | nil => exact ⟨rfl, h⟩
    | cons c a₂ =>
      exfalso
      rw [List.nil_append] at h
      have hh : t₁.head? = some c := by rw [h]; rfl
      have := hn₁ c hh
      have := hd₂ c (List.mem_cons_self _ _)
      simp_all
  | cons c₁ a₁ ih =>
    intro a₂ t₁ t₂ h hd₁ hd₂ hn₁ hn₂
    cases a₂ with
    | nil =>
      exfalso
      rw [List.nil_append] at h
      have hh : t₂.head? = some c₁ := by rw [← h]; rfl
      have := hn₂ c₁ hh
      have := hd₁ c₁ (List.mem_cons_self _ _)
      simp_all
    | cons c₂ a₂ =>
      rw [List.cons_append, List.cons_append] at h
      have hc : c₁ = c₂ := (List.cons.injEq _ _ _ _ ▸ h).1
      have ht : a₁ ++ t₁ = a₂ ++ t₂ := (List.cons.injEq _ _ _ _ ▸ h).2
      obtain ⟨he, ht'⟩ := ih a₂ t₁ t₂ ht
        (fun c hc => hd₁ c (List.mem_cons_of_mem _ hc))
        (fun c hc => hd₂ c (List.mem_cons_of_mem _ hc)) hn₁ hn₂
      exact ⟨by rw [hc, he], ht'⟩

theorem strData_append (a b : String) : (a ++ b).data = a.data ++ b.data := rfl

theorem toString_nat_eq (n : Nat) : (toString n : String) = Nat.repr n := rfl

theorem qname_eq_split {i₁ i₂ : Nat} {s₁ s₂ : List Char}
    (hs₁ : ∀ c, s₁.head? = some c → c.isDigit = false)
    (hs₂ : ∀ c, s₂.head? = some c → c.isDigit = false)
    (h : "question_".data ++ ((Nat.repr i₁).data ++ s₁) =
         "question_".data ++ ((Nat.repr i₂).data ++ s₂)) :
    i₁ = i₂ ∧ s₁ = s₂ := by
  have h2 := List.append_cancel_left h
  obtain ⟨he, ht⟩ := digits_cancel _ _ _ _ h2
    (fun c hc => repr_digits i₁ c hc) (fun c hc => repr_digits i₂ c hc) hs₁ hs₂
  refine ⟨repr_injective ?_, ht⟩
  cases hr₁ : Nat.repr i₁ with
  | mk d₁ =>
    cases hr₂ : Nat.repr i₂ with
    | mk d₂ =>
      rw [hr₁, hr₂] at he
      simp_all

theorem repr_data_inj {a b : Nat} (h : (Nat.repr a).data = (Nat.repr b).data) : a = b :=
  repr_injective (String.ext h)

theorem keyName_data (k : NameKey) :
    (keyName k).data = "question_".data ++ ((Nat.repr (keyIdx k)).data ++ sfxData k) := by
  cases k <;>
    simp [keyName, keyIdx, sfxData, strData_append, toString_nat_eq, List.append_assoc]

theorem sfx_head_nondigit (k : NameKey) :
    ∀ c, (sfxData k).head? = some c → c.isDigit = false := by
  cases k with
  | radioK i => intro c hc; cases hc
  | cbK i j =>
    intro c hc
    have h0 : (sfxData (.cbK i j)).head? = some '_' := rfl
    rw [h0] at hc
    rw [← Option.some.inj hc]
    decide
  | textK i j =>
    intro c hc
    have h0 : (sfxData (.textK i j)).head? = some '_' := rfl
    rw [h0] at hc
    rw [← Option.some.inj hc]
    decide
  | selK i j =>
    intro c hc
    have h0 : (sfxData (.selK i j)).head? = some '_' := rfl
    rw [h0] at hc
    rw [← Option.some.inj hc]
    decide

theorem sfxData_inj (k₁ k₂ : NameKey) (hi : keyIdx k₁ = keyIdx k₂)
    (hs : sfxData k₁ = sfxData k₂) : k₁ = k₂ := by
  have hcb : "_checkbox_".data = ['_','c','h','e','c','k','b','o','x','_'] := rfl
  have htx : "_text_".data = ['_','t','e','x','t','_'] := rfl
  have hsl : "_select_".data = ['_','s','e','l','e','c','t','_'] := rfl
  cases k₁ with
  | radioK i₁ =>
    cases k₂ with
    | radioK i₂ => simp only [keyIdx] at hi; rw [hi]
    | cbK i₂ j₂ => rw [show sfxData (.radioK i₁) = [] from rfl, sfxData, hcb] at hs; cases hs
    | textK i₂ j₂ => rw [show sfxData (.radioK i₁) = [] from rfl, sfxData, htx] at hs; cases hs
    | selK i₂ j₂ => rw [show sfxData (.radioK i₁) = [] from rfl, sfxData, hsl] at hs; cases hs
  | cbK i₁ j₁ =>
    cases k₂ with
    | radioK i₂ => rw [show sfxData (.radioK i₂) = [] from rfl, sfxData, hcb] at hs; cases hs
    | cbK i₂ j₂ =>
      simp only [keyIdx] at hi
      rw [sfxData, sfxData, hcb] at hs
      have hj := repr_data_inj (List.append_cancel_left hs)
      rw [hi, hj]
    | textK i₂ j₂ => rw [sfxData, sfxData, hcb, htx] at hs; simp at hs
    | selK i₂ j₂ => rw [sfxData, sfxData, hcb, hsl] at hs; simp at hs
  | textK i₁ j₁ =>
    cases k₂ with
    | radioK i₂ => rw [show sfxData (.radioK i₂) = [] from rfl, sfxData, htx] at hs; cases hs
    | cbK i₂ j₂ => rw [sfxData, sfxData, hcb, htx] at hs; simp at hs
    | textK i₂ j₂ =>
      simp only [keyIdx] at hi
      rw [sfxData, sfxData, htx] at hs
      have hj := repr_data_inj (List.append_cancel_left hs)
      rw [hi, hj]
    | selK i₂ j₂ => rw [sfxData, sfxData, htx, hsl] at hs; simp at hs
  | selK i₁ j₁ =>
    cases k₂ with
    | radioK i₂ => rw [show sfxData (.radioK i₂) = [] from rfl, sfxData, hsl] at hs; cases hs
    | cbK i₂ j₂ => rw [sfxData, sfxData, hcb, hsl] at hs; simp at hs
    | textK i₂ j₂ => rw [sfxData, sfxData, htx, hsl] at hs; simp at hs
    | selK i₂ j₂ =>
      simp only [keyIdx] at hi
      rw [sfxData, sfxData, hsl] at hs
      have hj := repr_data_inj (List.append_cancel_left hs)
      rw [hi, hj]

theorem keyName_inj (k₁ k₂ : NameKey) (h : keyName k₁ = keyName k₂) : k₁ = k₂ := by
  have hd := congrArg String.data h
  rw [keyName_data, keyName_data] at hd
  obtain ⟨hi, hs⟩ := qname_eq_split (sfx_head_nondigit k₁) (sfx_head_nondigit k₂) hd
  exact sfxData_inj k₁ k₂ hi hs

/-! ### Query lemmas shared by the discovery-invariant proofs -/
theorem subPathsL_ne_nil :
    ∀ (cs : List Elem) (i : Nat) (s : Path), s ∈ subPathsL i cs → s ≠ [] := by
  intro cs
  induction cs with
  | nil => intro i s hs; cases hs
  | cons c cs ih =>
    intro i s hs
    rw [subPathsL, List.mem_append] at hs
    rcases hs with hs | hs
    · rw [List.mem_map] at hs
      obtain ⟨t, _, rfl⟩ := hs
      exact List.cons_ne_nil _ _
    · exact ih _ s hs

theorem mem_qFrom_shape {root : Elem} {b : Path} {sel : EProps → Bool} {p : Path}
    (h : p ∈ qFrom root b sel) : ∃ s, s ≠ [] ∧ p = b ++ s := by
  unfold qFrom at h
  split at h
  · have h1 := (List.mem_filter.1 h).1
    rw [List.mem_map] at h1
    obtain ⟨s, hs, rfl⟩ := h1
    exact ⟨s, subPathsL_ne_nil _ _ s hs, rfl⟩
  · cases h

theorem mem_qAll_propMatches {root : Elem} {sel : EProps → Bool} {c : Path}
    (h : c ∈ qAll root sel) : propMatches root sel c = true :=
  (List.mem_filter.1 h).2

theorem closest_isSome_of_ancestor {root : Elem} {p c : Path} {sel : EProps → Bool}
    (hpre : ∃ s, p = c ++ s) (hm : propMatches root sel c = true) :
    (closest root p sel).isSome = true := by
  obtain ⟨s, rfl⟩ := hpre
  apply List.find?_isSome.2
  refine ⟨c, ?_, hm⟩
  unfold upChain
  rw [List.mem_map]
  refine ⟨c.length, ?_, List.take_left c s⟩
  rw [List.mem_reverse, List.mem_range, List.length_append]
  omega

theorem mem_of_mem_enum {α : Type} {l : List α} {j : Nat} {x : α}
    (h : (j, x) ∈ l.enum) : x ∈ l := by
  obtain ⟨hlt, hx⟩ := List.mem_enum h
  rw [hx]
  exact List.getElem_mem _

theorem containerFields_element (root : Elem) (i : Nat) (c : Path) (f : FormField)
    (hf : f ∈ containerFields root i c) : ∃ s, s ≠ [] ∧ f.element = c ++ s := by
  simp only [containerFields, List.mem_append] at hf
  rcases hf with ((hf | hf) | hf) | hf
  · rcases hrad : qFrom root c isRadio with _ | ⟨r, rs⟩
    · rw [hrad] at hf
      simp at hf
    · rw [hrad] at hf
      simp only [List.isEmpty_cons, if_neg Bool.false_ne_true, List.mem_singleton] at hf
      subst hf
      have hr : r ∈ qFrom root c isRadio := by
        rw [hrad]; exact List.mem_cons_self _ _
      simpa using mem_qFrom_shape hr
  · rw [List.mem_map] at hf
    obtain ⟨⟨j, q⟩, hmem, rfl⟩ := hf
    exact mem_qFrom_shape (mem_of_mem_enum hmem)
  · rw [List.mem_map] at hf
    obtain ⟨⟨j, q⟩, hmem, rfl⟩ := hf
    exact mem_qFrom_shape (mem_of_mem_enum hmem)
  · rw [List.mem_map] at hf
    obtain ⟨⟨j, q⟩, hmem, rfl⟩ := hf
    exact mem_qFrom_shape (mem_of_mem_enum hmem)

theorem fallbackFields_not_in_container (root : Elem) (f : FormField)
    (hf : f ∈ fallbackFields root) :
    (closest root f.element isQuestionContainer).isSome = false := by
  unfold fallbackFields at hf
  rw [List.mem_filterMap] at hf
  obtain ⟨ip, _, hsome⟩ := hf
  by_cases hcl : (closest root ip.2 isQuestionContainer).isSome = true
  · rw [if_pos hcl] at hsome
    cases hsome
  · rw [if_neg hcl] at hsome
    have hrec := Option.some.inj hsome
    rw [← hrec]
    simp only [Option.not_isSome_iff_eq_none] at hcl
    simp [hcl]

theorem disjoint_of_kind {l₁ l₂ : List NameKey} {k₁ k₂ : Nat}
    (h₁ : ∀ x ∈ l₁, keyKind x = k₁) (h₂ : ∀ x ∈ l₂, keyKind x = k₂)
    (hne : k₁ ≠ k₂) : l₁.Disjoint l₂ :=
  fun x hx₁ hx₂ => hne (by rw [← h₁ x hx₁, ← h₂ x hx₂])

theorem containerKeys_idx {i : Nat} {hasRadio : Bool} {ncb ntx nsel : Nat} {k : NameKey}
    (hk : k ∈ containerKeys i hasRadio ncb ntx nsel) : keyIdx k = i := by
  simp only [containerKeys, List.mem_append, List.mem_map, List.mem_range] at hk
  rcases hk with ((hk | hk) | hk) | hk
  · rcases hasRadio with _ | _
    · rw [if_neg (by simp)] at hk
      cases hk
    · rw [if_pos rfl, List.mem_singleton] at hk
      rw [hk]
      rfl
  · obtain ⟨j, _, rfl⟩ := hk
    rfl
  · obtain ⟨j, _, rfl⟩ := hk
    rfl
  · obtain ⟨j, _, rfl⟩ := hk
    rfl

theorem containerKeys_nodup (i : Nat) (hasRadio : Bool) (ncb ntx nsel : Nat) :
    (containerKeys i hasRadio ncb ntx nsel).Nodup := by
  have hr : (if hasRadio then [NameKey.radioK i] else []).Nodup := by
    rcases hasRadio with _ | _ <;> simp
  have hcb : ((List.range ncb).map (NameKey.cbK i)).Nodup :=
    (List.nodup_range ncb).map fun a b h => by
      injection h
  have htx : ((List.range ntx).map (NameKey.textK i)).Nodup :=
    (List.nodup_range ntx).map fun a b h => by
      injection h
  have hsl : ((List.range nsel).map (NameKey.selK i)).Nodup :=
    (List.nodup_range nsel).map fun a b h => by
      injection h
  have kr : ∀ x ∈ (if hasRadio then [NameKey.radioK i] else []), keyKind x = 0 := by
    rcases hasRadio with _ | _
    · intro x hx
      rw [if_neg (by simp)] at hx
      cases hx
    · intro x hx
      rw [if_pos rfl, List.mem_singleton] at hx
      rw [hx]
      rfl
  have kcb : ∀ x ∈ (List.range ncb).map (NameKey.cbK i), keyKind x = 1 := by
    intro x hx
    rw [List.mem_map] at hx
    obtain ⟨j, _, rfl⟩ := hx
    rfl
  have ktx : ∀ x ∈ (List.range ntx).map (NameKey.textK i), keyKind x = 2 := by
    intro x hx
    rw [List.mem_map] at hx
    obtain ⟨j, _, rfl⟩ := hx
    rfl
  have ksl : ∀ x ∈ (List.range nsel).map (NameKey.selK i), keyKind x = 3 := by
    intro x hx
    rw [List.mem_map] at hx
    obtain ⟨j, _, rfl⟩ := hx
    rfl
  unfold containerKeys
  rw [List.nodup_append, List.nodup_append, List.nodup_append]
  refine ⟨⟨⟨hr, hcb, disjoint_of_kind kr kcb (by omega)⟩, htx, ?_⟩, hsl, ?_⟩
  · intro x hx
    rw [List.mem_append] at hx
    rcases hx with hx | hx
    · exact disjoint_of_kind kr ktx (by omega) hx
    · exact disjoint_of_kind kcb ktx (by omega) hx
  · intro x hx
    rw [List.mem_append, List.mem_append] at hx
    rcases hx with (hx | hx) | hx
    · exact disjoint_of_kind kr ksl (by omega) hx
    · exact disjoint_of_kind kcb ksl (by omega) hx
    · exact disjoint_of_kind ktx ksl (by omega) hx

theorem map_fst_dep {β : Type} (l : List (Nat × Path)) (g : Nat → β) :
    (l.map fun p => g p.1) = (l.map Prod.fst).map g := by
  rw [List.map_map]
  rfl

/-- The names of one container's fields are exactly the rendered key names. -/
theorem containerFields_names (root : Elem) (i : Nat) (c : Path) :
    (containerFields root i c).map FormField.name =
      (containerKeys i (!(qFrom root c isRadio).isEmpty)
        (qFrom root c isCheckbox).length (qFrom root c isTextWide).length
        (qFrom root c isSelectEl).length).map keyName := by
  simp only [containerFields, containerKeys, List.map_append]
  congr 1
  congr 1
  congr 1
  · rcases hre : (qFrom root c isRadio).isEmpty with _ | _
    · rfl
    · rfl
  · rw [List.map_map]
    show (qFrom root c isCheckbox).enum.map (fun jc => keyName (NameKey.cbK i jc.1)) = _
    rw [map_fst_dep _ (fun j => keyName (NameKey.cbK i j)), List.enum_map_fst, List.map_map]
    rfl
  · rw [List.map_map]
    show (qFrom root c isTextWide).enum.map (fun jt => keyName (NameKey.textK i jt.1)) = _
    rw [map_fst_dep _ (fun j => keyName (NameKey.textK i j)), List.enum_map_fst, List.map_map]
    rfl
  · rw [List.map_map]
    show (qFrom root c isSelectEl).enum.map (fun js => keyName (NameKey.selK i js.1)) = _
    rw [map_fst_dep _ (fun j => keyName (NameKey.selK i j)), List.enum_map_fst, List.map_map]
    rfl

theorem containerPassFields_names (root : Elem) :
    (containerPassFields root).map FormField.name = (allKeys root).map keyName := by
  unfold containerPassFields allKeys
  rw [List.map_flatten, List.map_flatten]
  congr 1
  rw [List.map_map, List.map_map]
  apply List.map_congr_left
  intro ic _
  exact containerFields_names root ic.1 ic.2

theorem allKeys_nodup (root : Elem) : (allKeys root).Nodup := by
  unfold allKeys
  rw [List.nodup_flatten]
  constructor
  · intro l hl
    rw [List.mem_map] at hl
    obtain ⟨ic, _, rfl⟩ := hl
    exact containerKeys_nodup _ _ _ _ _
  · rw [List.pairwise_map]
    have hnd : List.Pairwise (fun a b => a ≠ b)
        ((qAll root isQuestionContainer).enum.map Prod.fst) := by
      rw [List.enum_map_fst]
      exact List.nodup_range _
    rw [List.pairwise_map] at hnd
    apply hnd.imp
    intro a b hab
    intro k hk₁ hk₂
    exact hab (by rw [← containerKeys_idx hk₁, ← containerKeys_idx hk₂])

/-- C2 counterexample: with two stray text inputs sharing a `name` attribute,
the fallback sweep emits two descriptors with the same identifier, so the
identifiers of one discovery pass are not pairwise distinct. -/
theorem duplicate_identifiers :
    (extractFormFields docDupNames).map FormField.name = ["email", "email"] ∧
    ¬ ((extractFormFields docDupNames).map FormField.name).Nodup :=
  ⟨rfl, by decide⟩

/-- C2 (amended): the identifiers of the descriptors emitted by the
container-scoped pass are pairwise distinct — they are generated from the
container index and a per-kind running counter.  The fallback sweep's
identifiers, however, come from the control's `name` attribute (or a
`field_N` fallback) and may collide. -/
theorem container_pass_names_nodup (root : Elem) :
    ((containerPassFields root).map FormField.name).Nodup := by
  rw [containerPassFields_names]
  exact (allKeys_nodup root).map fun a b h => keyName_inj a b h

/-! ### C3 — container pass and fallback sweep are disjoint -/
/-- C3: no control claimed by the container-scoped pass is ever emitted by
the fallback sweep — the two claimed-control sets are disjoint.  A
container-claimed control lies strictly inside a matching container, so its
`closest` container lookup succeeds, which is exactly the condition under
which the sweep skips it. -/
theorem no_double_claim (root : Elem) (p : Path)
    (h : p ∈ (containerPassFields root).map FormField.element) :
    p ∉ (fallbackFields root).map FormField.element := by
  intro hfb
  rw [List.mem_map] at h hfb
  obtain ⟨f, hf, rfl⟩ := h
  obtain ⟨g, hg, hge⟩ := hfb
  unfold containerPassFields at hf
  rw [List.mem_flatten] at hf
  obtain ⟨l, hl, hfl⟩ := hf
  rw [List.mem_map] at hl
  obtain ⟨ic, hic, rfl⟩ := hl
  have hc : ic.2 ∈ qAll root isQuestionContainer := by
    obtain ⟨j, cc⟩ := ic
    exact mem_of_mem_enum hic
  obtain ⟨s, hs, he⟩ := containerFields_element root ic.1 ic.2 f hfl
  have hsome := closest_isSome_of_ancestor ⟨s, he⟩ (mem_qAll_propMatches hc)
  have hnone := fallbackFields_not_in_container root g hg
  rw [hge, hsome] at hnone
  cases hnone

/-- C3 witness: on the colors document the first radio is claimed by the
container pass and, by the theorem, absent from the fallback sweep. -/
theorem no_double_claim_witness :
    [0, 1, 0] ∈ (containerPassFields docColors).map FormField.element ∧
    [0, 1, 0] ∉ (fallbackFields docColors).map FormField.element :=
  ⟨by decide, no_double_claim docColors [0, 1, 0] (by decide)⟩

/-- C4: a container holding at least one radio contributes exactly one
radio (single-choice) descriptor, whose options are exactly the texts of the
container's radios, in document order — hence as many options as radios. -/
theorem radio_grouping (root : Elem) (i : Nat) (c : Path)
    (h : qFrom root c isRadio ≠ []) :
    (containerFields root i c).filter (fun f => f.type == "radio") =
      [radioGroupField root i c] ∧
    (radioGroupField root i c).options =
      some ((qFrom root c isRadio).map fun rp => radioOptionText root rp) ∧
    ((radioGroupField root i c).options.getD []).length =
      (qFrom root c isRadio).length := by
  refine ⟨?_, rfl, by simp [radioGroupField]⟩
  have hne : (qFrom root c isRadio).isEmpty ≠ true := by
    simpa [List.isEmpty_iff] using h
  have hcb : ((qFrom root c isCheckbox).enum.map fun jc =>
      ({ type := "checkbox",
         label := questionTextAt root i c ++ " - " ++ checkboxText root jc.1 jc.2,
         name := "question_" ++ toString i ++ "_checkbox_" ++ toString jc.1,
         required := false, element := jc.2 } : FormField)).filter
        (fun f => f.type == "radio") = [] := by
    rw [List.filter_eq_nil_iff]
    intro a ha
    rw [List.mem_map] at ha
    obtain ⟨jc, _, rfl⟩ := ha
    simp
  have htx : ((qFrom root c isTextWide).enum.map fun jt =>
      ({ type := if tagAt root jt.2 == some Tag.textarea then "textarea" else "text",
         label := questionTextAt root i c,
         name := "question_" ++ toString i ++ "_text_" ++ toString jt.1,
         required := requiredAt root jt.2, element := jt.2 } : FormField)).filter
        (fun f => f.type == "radio") = [] := by
    rw [List.filter_eq_nil_iff]
    intro a ha
    rw [List.mem_map] at ha
    obtain ⟨jt, _, rfl⟩ := ha
    by_cases hta : tagAt root jt.2 == some Tag.textarea <;> simp [hta]
  have hsl : ((qFrom root c isSelectEl).enum.map fun js =>
      ({ type := "select", label := questionTextAt root i c,
         name := "question_" ++ toString i ++ "_select_" ++ toString js.1,
         required := requiredAt root js.2,
         options := some (selectOptionTexts root js.2), element := js.2 } : FormField)).filter
        (fun f => f.type == "radio") = [] := by
    rw [List.filter_eq_nil_iff]
    intro a ha
    rw [List.mem_map] at ha
    obtain ⟨js, _, rfl⟩ := ha
    simp
  unfold containerFields
  simp only [List.filter_append, if_neg hne, hcb, htx, hsl]
  simp [radioGroupField]

/-- C4 witness: on the colors document, container 0 contributes exactly one
radio descriptor with options Red, Green, Blue in document order. -/
theorem radio_grouping_witness :
    qFrom docColors [0] isRadio ≠ [] ∧
    ((containerFields docColors 0 [0]).filter (fun f => f.type == "radio") =
        [radioGroupField docColors 0 [0]] ∧
      (radioGroupField docColors 0 [0]).options =
        some ((qFrom docColors [0] isRadio).map fun rp => radioOptionText docColors rp) ∧
      ((radioGroupField docColors 0 [0]).options.getD []).length =
        (qFrom docColors [0] isRadio).length) :=
  ⟨by decide, radio_grouping docColors 0 [0] (by decide)⟩

/-! ### C5 — checkboxes are never grouped -/
/-- C5: a container with N checkboxes contributes exactly N checkbox
descriptors, and each descriptor's label is the container label, `" - "`, and
the checkbox's own label. -/
theorem checkbox_non_grouping (root : Elem) (i : Nat) (c : Path) :
    ((containerFields root i c).filter (fun f => f.type == "checkbox")).length =
      (qFrom root c isCheckbox).length ∧
    ((containerFields root i c).filter
        (fun f => f.type == "checkbox")).map FormField.label =
      (qFrom root c isCheckbox).enum.map
        (fun jc => questionTextAt root i c ++ " - " ++ checkboxText root jc.1 jc.2) := by
  have hfil : (containerFields root i c).filter (fun f => f.type == "checkbox") =
      (qFrom root c isCheckbox).enum.map fun jc =>
        ({ type := "checkbox",
           label := questionTextAt root i c ++ " - " ++ checkboxText root jc.1 jc.2,
           name := "question_" ++ toString i ++ "_checkbox_" ++ toString jc.1,
           required := false, element := jc.2 } : FormField) := by
    unfold containerFields
    simp only [List.filter_append]
    have hr : (if (qFrom root c isRadio).isEmpty then ([] : List FormField)
        else [{ type := "radio", label := questionTextAt root i c,
                name := "question_" ++ toString i, required := false,
                options := some ((qFrom root c isRadio).map fun rp => radioOptionText root rp),
                element := (qFrom root c isRadio).headD [] }]).filter
          (fun f => f.type == "checkbox") = [] := by
      split
      · rfl
      · simp
    have hcb : ((qFrom root c isCheckbox).enum.map fun jc =>
        ({ type := "checkbox",
           label := questionTextAt root i c ++ " - " ++ checkboxText root jc.1 jc.2,
           name := "question_" ++ toString i ++ "_checkbox_" ++ toString jc.1,
           required := false, element := jc.2 } : FormField)).filter
          (fun f => f.type == "checkbox") =
        (qFrom root c isCheckbox).enum.map fun jc =>
        ({ type := "checkbox",
           label := questionTextAt root i c ++ " - " ++ checkboxText root jc.1 jc.2,
           name := "question_" ++ toString i ++ "_checkbox_" ++ toString jc.1,
           required := false, element := jc.2 } : FormField) := by
      rw [List.filter_eq_self]
      intro a ha
      rw [List.mem_map] at ha
      obtain ⟨jc, _, rfl⟩ := ha
      simp
    have htx : ((qFrom root c isTextWide).enum.map fun jt =>
        ({ type := if tagAt root jt.2 == some Tag.textarea then "textarea" else "text",
           label := questionTextAt root i c,
           name := "question_" ++ toString i ++ "_text_" ++ toString jt.1,
           required := requiredAt root jt.2, element := jt.2 } : FormField)).filter
          (fun f => f.type == "checkbox") = [] := by
      rw [List.filter_eq_nil_iff]
      intro a ha
      rw [List.mem_map] at ha
      obtain ⟨jt, _, rfl⟩ := ha
      by_cases hta : tagAt root jt.2 == some Tag.textarea <;> simp [hta]
    have hsl : ((qFrom root c isSelectEl).enum.map fun js =>
        ({ type := "select", label := questionTextAt root i c,
           name := "question_" ++ toString i ++ "_select_" ++ toString js.1,
           required := requiredAt root js.2,
           options := some (selectOptionTexts root js.2), element := js.2 } : FormField)).filter
          (fun f => f.type == "checkbox") = [] := by
      rw [List.filter_eq_nil_iff]
      intro a ha
      rw [List.mem_map] at ha
      obtain ⟨js, _, rfl⟩ := ha
      simp
    rw [hr, hcb, htx, hsl]
    simp
  rw [hfil]
  constructor
  · simp [List.enum_length]
  · rw [List.map_map]
    rfl

/-! ### C7 — radio application guard and match soundness -/
/-- C7: radio application attempts nothing unless the assignment value is one
of the descriptor's options, and any radio it does activate has an own label
that bidirectionally substring-matches the target value and an enclosing
container whose inferred label bidirectionally substring-matches the
descriptor's label. -/
theorem radio_application_sound (root : Elem) (field : FormField) (fd : FormData)
    (v : FVal) (hty : field.type = "radio") (hv : fd field.label = some v) :
    ((match field.options with
      | some opts => opts.contains (fvalToString v)
      | none => false) = false → fillField root field fd = (root, [])) ∧
    (∀ p, (fillField root field fd).2 = [FEvent.clickEv p] →
      bidirMatch (radioOwnLabel root p) (fvalToString v) = true ∧
      bidirMatch (radioContainerLabel root p) field.label = true) := by
  obtain ⟨ty, lbl, nm, rq, opts, el⟩ := field
  dsimp only at hty hv ⊢
  subst hty
  have hred : fillField root ⟨"radio", lbl, nm, rq, opts, el⟩ fd =
      (match opts with
       | some o =>
         if o.contains (fvalToString v) then fillRadio root lbl (fvalToString v)
         else (root, [])
       | none => (root, [])) := by
    unfold fillField
    rw [hv]
    rfl
  rw [hred]
  rcases opts with _ | o
  · exact ⟨fun _ => rfl, fun p hp => by cases hp⟩
  · dsimp only
    rcases hcont : o.contains (fvalToString v) with _ | _
    · rw [if_neg (by simp [hcont])]
      exact ⟨fun _ => rfl, fun p hp => by cases hp⟩
    · rw [if_pos (by simp [hcont])]
      refine ⟨?_, ?_⟩
      · intro hfalse
        cases hfalse
      intro p hp
      unfold fillRadio at hp
      rcases hfind : (qAll root isRadio).find? (radioMatchPred root lbl (fvalToString v))
        with _ | q
      · rw [hfind] at hp
        cases hp
      · rw [hfind] at hp
        dsimp only at hp
        have hq : q = p := by
          injection hp with h1 _
          injection h1
        subst hq
        have hpred := List.find?_some hfind
        unfold radioMatchPred at hpred
        rw [Bool.and_eq_true] at hpred
        refine ⟨hpred.1, ?_⟩
        unfold bidirMatch
        rw [Bool.or_eq_true]
        exact Or.inl hpred.2

/-- C7 witness: on the colors document with assignment Green, exactly the
Green radio is clicked, and both matches hold for it. -/
theorem radio_application_sound_witness :
    (fillField docColors docColorsField docColorsFD).2 = [FEvent.clickEv [0, 2, 0]] ∧
    (bidirMatch (radioOwnLabel docColors [0, 2, 0]) "Green" = true ∧
     bidirMatch (radioContainerLabel docColors [0, 2, 0]) "Favorite color" = true) :=
  ⟨by decide,
    (radio_application_sound docColors docColorsField docColorsFD (.s "Green")
      rfl rfl).2 [0, 2, 0] (by decide)⟩

/-! ### C8 — zero descriptors short-circuits the run -/
/-- C8: when discovery produces zero descriptors, the entry point returns
normally with the zero-fields outcome, whatever the value-mapping provider
is — the provider is never consulted. -/
theorem zeroFields_short_circuit (root : Elem)
    (provider : List FormField → Option FormData)
    (h : extractFormFields root = []) :
    autoFillGoogleForm root provider = .ok .zeroFields := by
  simp [autoFillGoogleForm, h]

/-- C8 witness: the empty document yields no descriptors and the run returns
the zero-fields outcome even under a provider that always fails. -/
theorem zeroFields_short_circuit_witness :
    extractFormFields docEmpty = [] ∧
    autoFillGoogleForm docEmpty (fun _ => none) = .ok .zeroFields :=
  ⟨rfl, zeroFields_short_circuit docEmpty (fun _ => none) rfl⟩

/-! ### C9 — absent mapping value skips the descriptor -/
/-- C9: a descriptor whose label has no value in the mapping causes no
document mutation and no event, and the remaining descriptors are applied
exactly as if it were not there. -/
theorem skip_on_absent (root : Elem) (f : FormField) (rest : List FormField)
    (fd : FormData) (h : fd f.label = none) :
    fillField root f fd = (root, []) ∧
    fillForm root (f :: rest) fd = fillForm root rest fd := by
  have h1 : fillField root f fd = (root, []) := by
    unfold fillField
    rw [h]
  exact ⟨h1, by rw [fillForm, h1]; simp⟩

/-- C9 witness: on the colors document, a descriptor labelled `Unused` is
skipped by an empty mapping and the remaining list proceeds unaffected. -/
theorem skip_on_absent_witness :
    fillField docColors
        { type := "text", label := "Unused", name := "n", required := false,
          element := [] } (fun _ => none) = (docColors, []) ∧
    fillForm docColors
        [{ type := "text", label := "Unused", name := "n", required := false,
           element := [] }] (fun _ => none) =
      fillForm docColors [] (fun _ => none) :=
  skip_on_absent docColors
    { type := "text", label := "Unused", name := "n", required := false,
      element := [] } [] (fun _ => none) rfl

/-! ### C10 — unmatched text descriptor is a silent no-op -/
/-- C10: when no text-capable control's inferred label bidirectionally
matches a text descriptor's label, applying that descriptor leaves the
document unchanged and dispatches no event. -/
theorem text_no_match_no_op (root : Elem) (lbl v : String)
    (h : ∀ p ∈ qAll root isTextNarrow, textMatchPred root lbl p = false) :
    fillText root lbl v = (root, []) := by
  unfold fillText
  have hn : (qAll root isTextNarrow).find? (textMatchPred root lbl) = none :=
    List.find?_eq_none.mpr fun p hp => by simp [h p hp]
  rw [hn]

/-- C10 witness: a document whose only text control is labelled `Phone` has
no match for the label `Quantity`, and the application is a no-op. -/
theorem text_no_match_no_op_witness :
    fillText docAriaOnly "Quantity" "5" = (docAriaOnly, []) :=
  text_no_match_no_op docAriaOnly "Quantity" "5" (by decide)

theorem find?_congr {α : Type} {p q : α → Bool} (h : ∀ a, p a = q a) :
    ∀ l : List α, l.find? p = l.find? q := by
  intro l
  induction l with
  | nil => rfl
  | cons a l ih => rw [List.find?_cons, List.find?_cons, h a, ih]

theorem updChild_get (g : Elem → Elem) :
    ∀ (cs : List Elem) (i j : Nat),
      (updChild cs i g)[j]? = if j = i then (cs[j]?).map g else cs[j]? := by
  intro cs
  induction cs with
  | nil =>
    intro i j
    rw [updChild]
    simp
  | cons c cs ih =>
    intro i j
    cases i with
    | zero =>
      cases j with
      | zero => rw [updChild]; simp
      | succ j => rw [updChild]; simp
    | succ i =>
      cases j with
      | zero => rw [updChild]; simp
      | succ j =>
        rw [updChild, List.getElem?_cons_succ, List.getElem?_cons_succ, ih i j]
        by_cases hj : j = i
        · rw [if_pos hj, if_pos (by omega)]
        · rw [if_neg hj, if_neg (by omega)]

theorem elemAt_cons (pr : EProps) (cs : List Elem) (j : Nat) (q : Path) :
    elemAt? (.mk pr cs) (j :: q) =
      match cs[j]? with
      | some c => elemAt? c q
      | none => none := rfl

theorem propsAt_cons (pr : EProps) (cs : List Elem) (j : Nat) (q : Path) :
    propsAt? (.mk pr cs) (j :: q) =
      match cs[j]? with
      | some c => propsAt? c q
      | none => none := by
  unfold propsAt?
  rw [elemAt_cons]
  cases cs[j]? with
  | some c => rfl
  | none => rfl

theorem propsAt_updateAt (f : EProps → EProps) :
    ∀ (p q : Path) (r : Elem),
      propsAt? (updateAt r p f) q =
        if q = p then (propsAt? r q).map f else propsAt? r q := by
  intro p
  induction p with
  | nil =>
    intro q r
    cases r with
    | mk pr cs =>
      cases q with
      | nil => rfl
      | cons j q' =>
        rw [if_neg (List.cons_ne_nil j q')]
        show propsAt? (.mk (f pr) cs) (j :: q') = propsAt? (.mk pr cs) (j :: q')
        rw [propsAt_cons, propsAt_cons]
  | cons i p' ih =>
    intro q r
    cases r with
    | mk pr cs =>
      cases q with
      | nil => rw [if_neg (by simp)]; rfl
      | cons j q' =>
        show propsAt? (.mk pr (updChild cs i fun c => updateAt c p' f)) (j :: q') = _
        rw [propsAt_cons, propsAt_cons, updChild_get]
        by_cases hj : j = i
        · rw [if_pos hj]
          cases hc : cs[j]? with
          | none =>
            by_cases hq : j :: q' = i :: p'
            · rw [if_pos hq]; rfl
            · rw [if_neg hq]; rfl
          | some c =>
            show propsAt? (updateAt c p' f) q' = _
            rw [ih q' c]
            by_cases hq : q' = p'
            · rw [if_pos hq, if_pos (by rw [hj, hq])]
            · rw [if_neg hq, if_neg (by simp [hq])]
        · rw [if_neg hj, if_neg (by simp [hj])]

theorem textContentL_updChild (g : Elem → Elem) (hg : ∀ c, textContent (g c) = textContent c) :
    ∀ (cs : List Elem) (i : Nat), textContentL (updChild cs i g) = textContentL cs := by
  intro cs
  induction cs with
  | nil => intro i; rfl
  | cons c cs ih =>
    intro i
    cases i with
    | zero =>
      rw [updChild]
      show textContent (g c) ++ textContentL cs = _
      rw [hg c]
      rfl
    | succ i =>
      rw [updChild]
      show textContent c ++ textContentL (updChild cs i g) = _
      rw [ih i]
      rfl

theorem textContent_updateAt (f : EProps → EProps) (hf : ∀ pr, (f pr).ownText = pr.ownText) :
    ∀ (p : Path) (r : Elem), textContent (updateAt r p f) = textContent r := by
  intro p
  induction p with
  | nil =>
    intro r
    cases r with
    | mk pr cs =>
      show (f pr).ownText ++ textContentL cs = pr.ownText ++ textContentL cs
      rw [hf pr]
  | cons i p' ih =>
    intro r
    cases r with
    | mk pr cs =>
      show pr.ownText ++ textContentL (updChild cs i fun c => updateAt c p' f) = _
      rw [textContentL_updChild _ (fun c => ih c) cs i]
      rfl

theorem textContentAt_cons (pr : EProps) (cs : List Elem) (j : Nat) (q : Path) :
    textContentAt (.mk pr cs) (j :: q) =
      match cs[j]? with
      | some c => textContentAt c q
      | none => "" := by
  unfold textContentAt
  rw [elemAt_cons]
  cases cs[j]? with
  | some c => rfl
  | none => rfl

theorem textContentAt_updateAt (f : EProps → EProps)
    (hf : ∀ pr, (f pr).ownText = pr.ownText) :
    ∀ (p q : Path) (r : Elem),
      textContentAt (updateAt r p f) q = textContentAt r q := by
  intro p
  induction p with
  | nil =>
    intro q r
    cases r with
    | mk pr cs =>
      cases q with
      | nil =>
        show textContent (updateAt (.mk pr cs) [] f) = textContent (.mk pr cs)
        exact textContent_updateAt f hf [] _
      | cons j q' =>
        show textContentAt (.mk (f pr) cs) (j :: q') = textContentAt (.mk pr cs) (j :: q')
        rw [textContentAt_cons, textContentAt_cons]
  | cons i p' ih =>
    intro q r
    cases r with
    | mk pr cs =>
      cases q with
      | nil =>
        show textContent (updateAt (.mk pr cs) (i :: p') f) = textContent (.mk pr cs)
        exact textContent_updateAt f hf (i :: p') _
      | cons j q' =>
        show textContentAt (.mk pr (updChild cs i fun c => updateAt c p' f)) (j :: q') = _
        rw [textContentAt_cons, textContentAt_cons, updChild_get]
        by_cases hj : j = i
        · rw [if_pos hj]
          cases hc : cs[j]? with
          | none => rfl
          | some c => exact ih q' c
        · rw [if_neg hj]

theorem subPathsL_updChild (g : Elem → Elem) (hg : ∀ c, subPaths (g c) = subPaths c) :
    ∀ (cs : List Elem) (i n : Nat), subPathsL n (updChild cs i g) = subPathsL n cs := by
  intro cs
  induction cs with
  | nil => intro i n; rfl
  | cons c cs ih =>
    intro i n
    cases i with
    | zero =>
      rw [updChild]
      show (subPaths (g c)).map (n :: ·) ++ subPathsL (n + 1) cs = _
      rw [hg c]
      rfl
    | succ i =>
      rw [updChild]
      show (subPaths c).map (n :: ·) ++ subPathsL (n + 1) (updChild cs i g) = _
      rw [ih i (n + 1)]
      rfl

theorem subPaths_updateAt (f : EProps → EProps) :
    ∀ (p : Path) (r : Elem), subPaths (updateAt r p f) = subPaths r := by
  intro p
  induction p with
  | nil =>
    intro r
    cases r with
    | mk pr cs => rfl
  | cons i p' ih =>
    intro r
    cases r with
    | mk pr cs =>
      show [] :: subPathsL 0 (updChild cs i fun c => updateAt c p' f) = [] :: subPathsL 0 cs
      rw [subPathsL_updChild _ (fun c => ih c) cs i 0]

theorem ownText_of_static {f : EProps → EProps} (hf : StaticF f) (pr : EProps) :
    (f pr).ownText = pr.ownText := by
  have h := hf pr
  have h1 : (statView (f pr)).ownText = (statView pr).ownText := by rw [h]
  exact h1

theorem propsAt_statView {f : EProps → EProps} (hf : StaticF f) (p q : Path) (r : Elem) :
    (propsAt? (updateAt r p f) q).map statView = (propsAt? r q).map statView := by
  rw [propsAt_updateAt]
  by_cases hq : q = p
  · rw [if_pos hq]
    cases propsAt? r q with
    | none => rfl
    | some pr =>
      show some (statView (f pr)) = some (statView pr)
      rw [hf pr]
  · rw [if_neg hq]

theorem propMatches_static {f : EProps → EProps} (sel : EProps → Bool)
    (hsel : ∀ pr, sel (statView pr) = sel pr) (hf : StaticF f) (p q : Path) (r : Elem) :
    propMatches (updateAt r p f) sel q = propMatches r sel q := by
  unfold propMatches
  have h := propsAt_statView hf p q r
  cases h₁ : propsAt? (updateAt r p f) q with
  | none =>
    cases h₂ : propsAt? r q with
    | none => rfl
    | some pr₂ => rw [h₁, h₂] at h; cases h
  | some pr₁ =>
    cases h₂ : propsAt? r q with
    | none => rw [h₁, h₂] at h; cases h
    | some pr₂ =>
      rw [h₁, h₂] at h
      have hv : statView pr₁ = statView pr₂ := Option.some.inj h
      show sel pr₁ = sel pr₂
      rw [← hsel pr₁, ← hsel pr₂, hv]

theorem getAttr_static {f : EProps → EProps} (g : EProps → Option String)
    (hg : ∀ pr, g (statView pr) = g pr) (hf : StaticF f) (p q : Path) (r : Elem) :
    getAttr (updateAt r p f) q g = getAttr r q g := by
  unfold getAttr
  have h := propsAt_statView hf p q r
  cases h₁ : propsAt? (updateAt r p f) q with
  | none =>
    cases h₂ : propsAt? r q with
    | none => rfl
    | some pr₂ => rw [h₁, h₂] at h; cases h
  | some pr₁ =>
    cases h₂ : propsAt? r q with
    | none => rw [h₁, h₂] at h; cases h
    | some pr₂ =>
      rw [h₁, h₂] at h
      have hv : statView pr₁ = statView pr₂ := Option.some.inj h
      show g pr₁ = g pr₂
      rw [← hg pr₁, ← hg pr₂, hv]

theorem qAll_static {f : EProps → EProps} (sel : EProps → Bool)
    (hsel : ∀ pr, sel (statView pr) = sel pr) (hf : StaticF f) (p : Path) (r : Elem) :
    qAll (updateAt r p f) sel = qAll r sel := by
  unfold qAll
  rw [subPaths_updateAt]
  exact List.filter_congr fun q _ => propMatches_static sel hsel hf p q r

theorem closest_static {f : EProps → EProps} (sel : EProps → Bool)
    (hsel : ∀ pr, sel (statView pr) = sel pr) (hf : StaticF f) (p q : Path) (r : Elem) :
    closest (updateAt r p f) q sel = closest r q sel := by
  unfold closest
  exact find?_congr (fun a => propMatches_static sel hsel hf p a r) _

theorem idLabelText_static {f : EProps → EProps} (hf : StaticF f) (p q : Path) (r : Elem) :
    idLabelText (updateAt r p f) q = idLabelText r q := by
  unfold idLabelText
  rw [getAttr_static EProps.id (fun _ => rfl) hf]
  cases truthyStr (getAttr r q EProps.id) with
  | none => rfl
  | some i =>
    dsimp only
    rw [qAll_static (labelForSel i) (fun _ => rfl) hf]
    cases (qAll r (labelForSel i)).head? with
    | none => rfl
    | some lp =>
      show some (strTrim (textContentAt (updateAt r p f) lp)) =
        some (strTrim (textContentAt r lp))
      rw [textContentAt_updateAt f (ownText_of_static hf) p lp r]

theorem parentLabelText_static {f : EProps → EProps} (hf : StaticF f) (p q : Path) (r : Elem) :
    parentLabelText (updateAt r p f) q = parentLabelText r q := by
  unfold parentLabelText
  rw [closest_static isLabelTag (fun _ => rfl) hf]
  cases closest r q isLabelTag with
  | none => rfl
  | some lp =>
    show some (strTrim (textContentAt (updateAt r p f) lp)) =
      some (strTrim (textContentAt r lp))
    rw [textContentAt_updateAt f (ownText_of_static hf) p lp r]

theorem findLabelTextCb_static {f : EProps → EProps} (hf : StaticF f) (p q : Path) (r : Elem) :
    findLabelTextCb (updateAt r p f) q = findLabelTextCb r q := by
  unfold findLabelTextCb
  rw [idLabelText_static hf, parentLabelText_static hf,
    getAttr_static EProps.ariaLabel (fun _ => rfl) hf]

theorem cbMatchPred_static {f : EProps → EProps} (hf : StaticF f) (lbl : String)
    (p q : Path) (r : Elem) :
    cbMatchPred (updateAt r p f) lbl q = cbMatchPred r lbl q := by
  unfold cbMatchPred
  rw [findLabelTextCb_static hf]

theorem checkedAt_some (r : Elem) (q : Path) (pr : EProps) (h : propsAt? r q = some pr) :
    checkedAt r q = pr.checked := by
  unfold checkedAt
  rw [h]

theorem fillCheckbox_found (root : Elem) (lbl : String) (b : Bool) (p : Path)
    (h : (qAll root isCheckbox).find? (cbMatchPred root lbl) = some p) :
    fillCheckbox root lbl b =
      if (checkedAt root p != b) = true then
        (updateAt root p fun pr => { pr with checked := !pr.checked }, [FEvent.clickEv p])
      else (root, []) := by
  unfold fillCheckbox
  rw [h]

/-- C6: applying the same boolean assignment to a checkbox descriptor twice
yields the same document as applying it once — the click is simulated only
when the current state differs from the desired one, so the second
application finds the state already equal and performs no toggle. -/
theorem checkbox_idempotent (root : Elem) (lbl : String) (b : Bool) :
    (fillCheckbox (fillCheckbox root lbl b).1 lbl b).1 = (fillCheckbox root lbl b).1 := by
  rcases hfind : (qAll root isCheckbox).find? (cbMatchPred root lbl) with _ | p
  · have h1 : fillCheckbox root lbl b = (root, []) := by
      unfold fillCheckbox
      rw [hfind]
    have hfix : (fillCheckbox root lbl b).1 = root := by rw [h1]
    rw [hfix]
    exact hfix
  · by_cases hch : (checkedAt root p != b) = true
    · have h1 : fillCheckbox root lbl b =
          (updateAt root p (fun pr => { pr with checked := !pr.checked }),
            [FEvent.clickEv p]) := by
        rw [fillCheckbox_found root lbl b p hfind, if_pos hch]
      have hstat : StaticF (fun pr => { pr with checked := !pr.checked }) := fun pr => rfl
      have hmem : p ∈ qAll root isCheckbox := List.mem_of_find?_eq_some hfind
      have hmatch : propMatches root isCheckbox p = true := (List.mem_filter.1 hmem).2
      obtain ⟨pr, hpr⟩ : ∃ pr, propsAt? root p = some pr := by
        unfold propMatches at hmatch
        cases hp : propsAt? root p with
        | none => rw [hp] at hmatch; cases hmatch
        | some pr => exact ⟨pr, rfl⟩
      have hqAll : qAll (updateAt root p (fun pr => { pr with checked := !pr.checked }))
          isCheckbox = qAll root isCheckbox :=
        qAll_static isCheckbox (fun _ => rfl) hstat p root
      have hpred : ∀ q, cbMatchPred
          (updateAt root p (fun pr => { pr with checked := !pr.checked })) lbl q =
          cbMatchPred root lbl q :=
        fun q => cbMatchPred_static hstat lbl p q root
      have hfind2 : (qAll (updateAt root p (fun pr => { pr with checked := !pr.checked }))
          isCheckbox).find? (cbMatchPred
            (updateAt root p (fun pr => { pr with checked := !pr.checked })) lbl) = some p := by
        rw [hqAll, find?_congr hpred, hfind]
      have hchecked : checkedAt
          (updateAt root p (fun pr => { pr with checked := !pr.checked })) p = !pr.checked := by
        apply checkedAt_some _ _ ({ pr with checked := !pr.checked })
        rw [propsAt_updateAt, if_pos rfl, hpr]
        rfl
      have hold : checkedAt root p = pr.checked := checkedAt_some root p pr hpr
      have hne : pr.checked ≠ b := by
        rw [hold] at hch
        exact bne_iff_ne.mp hch
      have heq2 : ((!pr.checked) != b) = false := by
        revert hne
        cases pr.checked <;> cases b <;> simp
      have h2 : fillCheckbox
          (updateAt root p (fun pr => { pr with checked := !pr.checked })) lbl b =
          (updateAt root p (fun pr => { pr with checked := !pr.checked }), []) := by
        rw [fillCheckbox_found _ lbl b p hfind2, hchecked, heq2]
        rw [if_neg (by simp)]
      have hfix : (fillCheckbox root lbl b).1 =
          updateAt root p (fun pr => { pr with checked := !pr.checked }) := by rw [h1]
      rw [hfix, h2]
    · have h1 : fillCheckbox root lbl b = (root, []) := by
        rw [fillCheckbox_found root lbl b p hfind, if_neg hch]
      have hfix : (fillCheckbox root lbl b).1 = root := by rw [h1]
      rw [hfix]
      exact hfix

end FormAgent
